import Mathlib

/-!
Verification of the console-output interception and log-coalescing core of
`src/generated_src/ballistica/bootstrap.py` (`_BAConsoleRedirect`).

The class is shallowly embedded as a pure state machine.  Python strings are
`List Char`; the mutable fields `_linebits` / `_pending_ship` form `RState`.
Externally visible actions of a method call (the echo callback `self._call`,
lock acquire/release, buffer append, `_ba.pushcall`, entering `_shiplog`,
the drain of the buffer, `_ba.log`, `self._original.flush` / `.isatty`) are
recorded as an ordered event trace, so that claims about how often and in
what order collaborators are invoked become statements about the trace.
-/

namespace Ballistica

/-- Python strings, modelled as lists of characters. -/
abbrev Str := List Char

/-- Python `sval.endswith('\n')`: the last character is a newline.
The empty string has no last character, so this is `false` on it. -/
def endswithNL (s : Str) : Bool := s.getLast? == some '\n'

/-- Externally visible events of one method call of `_BAConsoleRedirect`. -/
inductive Ev where
  /-- `self._call(sval)` — the echo callback, tagged with the identity of the
  callback bound at construction (`_ba.print_stdout` vs `_ba.print_stderr`). -/
  | echo (callId : Nat) (text : Str)
  /-- Entering a `with self._lock:` block. -/
  | lockAcq
  /-- `self._linebits.append(sval)` under the lock. -/
  | append (text : Str)
  /-- Leaving a `with self._lock:` block. -/
  | lockRel
  /-- `_ba.pushcall(self._shiplog, from_other_thread=..., suppress_other_thread_warning=...)`. -/
  | push (fromOtherThread suppressWarning : Bool)
  /-- An execution of `_shiplog` begins. -/
  | shipRun
  /-- `self._linebits = []` — the drain of the buffer inside `_shiplog`. -/
  | take
  /-- `_ba.log(line, to_stdout=...)`. -/
  | log (line : Str) (toStdout : Bool)
  /-- `self._original.flush()`. -/
  | flushOrig
  /-- `self._original.isatty()`. -/
  | isattyOrig
deriving Repr, DecidableEq

/-- The mutable state of one `_BAConsoleRedirect` instance. -/
structure RState where
  /-- `self._linebits`: accumulated fragments since the last drain. -/
  linebits : List Str
  /-- `self._pending_ship`: set in `__init__` and never mentioned again. -/
  pending_ship : Bool
deriving Repr, DecidableEq

/-- `__init__`: empty fragment list, `_pending_ship = False`. -/
def init : RState := { linebits := [], pending_ship := false }

/-- `_shiplog`: under the lock join the fragments; if the joined line is the
empty string return at once (without clearing the list); otherwise clear the
list, release the lock, strip one trailing newline if present, and call
`_ba.log(line, to_stdout=False)`. -/
def shiplog (st : RState) : RState × List Ev :=
  let line := st.linebits.flatten
  if line = [] then
    (st, [Ev.shipRun, Ev.lockAcq, Ev.lockRel])
  else
    let line2 := if endswithNL line then line.dropLast else line
    ({ st with linebits := [] },
     [Ev.shipRun, Ev.lockAcq, Ev.take, Ev.lockRel, Ev.log line2 false])

/-- `write`: call the echo callback first, append the fragment under the
lock, then either ship synchronously (text newline-terminated) or push a
deferred `_shiplog` with `from_other_thread=True` and
`suppress_other_thread_warning=True`. -/
def write (cid : Nat) (st : RState) (sval : Str) : RState × List Ev :=
  let st1 : RState := { st with linebits := st.linebits ++ [sval] }
  let pre : List Ev := [Ev.echo cid sval, Ev.lockAcq, Ev.append sval, Ev.lockRel]
  if endswithNL sval then
    let r := shiplog st1
    (r.1, pre ++ r.2)
  else
    (st1, pre ++ [Ev.push true true])

/-- `flush`: delegate to `self._original.flush()`, nothing else. -/
def flush (st : RState) : RState × List Ev := (st, [Ev.flushOrig])

/-- `isatty`: return `self._original.isatty()`, nothing else.  The wrapped
stream's answer is passed in as `origAtty`. -/
def isatty (origAtty : Bool) (st : RState) : Bool × RState × List Ev :=
  (origAtty, st, [Ev.isattyOrig])

/-- A sequence of `write` calls on one instance, with the concatenated trace. -/
def writeSeq (cid : Nat) (st : RState) : List Str → RState × List Ev
  | [] => (st, [])
  | w :: ws =>
    let r1 := write cid st w
    let r2 := writeSeq cid r1.1 ws
    (r2.1, r1.2 ++ r2.2)

/-- Is an event the start of a `_shiplog` execution? -/
def isShipRun : Ev → Bool
  | Ev.shipRun => true
  | _ => false

/-- How many `_shiplog` executions a trace contains. -/
def shipCount (evs : List Ev) : Nat := (evs.filter isShipRun).length

/-- Extract a `_ba.log` call's payload. -/
def logOf : Ev → Option (Str × Bool)
  | Ev.log l b => some (l, b)
  | _ => none

/-- The records a trace delivers to `_ba.log`, in order. -/
def logRecords (evs : List Ev) : List (Str × Bool) := evs.filterMap logOf

/-- Extract a `_ba.pushcall` event's flags. -/
def pushOf : Ev → Option (Bool × Bool)
  | Ev.push a b => some (a, b)
  | _ => none

/-- The deferred-ship requests a trace issues, in order. -/
def pushEvents (evs : List Ev) : List (Bool × Bool) := evs.filterMap pushOf

/-- Extract an echo-callback invocation. -/
def echoOf : Ev → Option (Nat × Str)
  | Ev.echo c s => some (c, s)
  | _ => none

/-- The echo-callback invocations of a trace, in order. -/
def echoEvents (evs : List Ev) : List (Nat × Str) := evs.filterMap echoOf

/-- The trace of a sequence of partial (not newline-terminated) writes:
each write echoes, appends under the lock, and pushes one deferred ship. -/
def partialTrace (cid : Nat) : List Str → List Ev
  | [] => []
  | w :: ws =>
      Ev.echo cid w :: Ev.lockAcq :: Ev.append w :: Ev.lockRel ::
        Ev.push true true :: partialTrace cid ws

theorem shipCount_append (a b : List Ev) :
    shipCount (a ++ b) = shipCount a + shipCount b := by
  simp [shipCount, List.filter_append]

theorem logRecords_append (a b : List Ev) :
    logRecords (a ++ b) = logRecords a ++ logRecords b := by
  simp [logRecords]

theorem pushEvents_append (a b : List Ev) :
    pushEvents (a ++ b) = pushEvents a ++ pushEvents b := by
  simp [pushEvents]

theorem echoEvents_append (a b : List Ev) :
    echoEvents (a ++ b) = echoEvents a ++ echoEvents b := by
  simp [echoEvents]

theorem shiplog_shipCount (st : RState) : shipCount (shiplog st).2 = 1 := by
  by_cases h : st.linebits.flatten = [] <;>
    simp [shiplog, h, shipCount, List.filter, isShipRun]

theorem shiplog_echoEvents (st : RState) : echoEvents (shiplog st).2 = [] := by
  by_cases h : st.linebits.flatten = [] <;>
    simp [shiplog, h, echoEvents, List.filterMap, echoOf]

theorem shiplog_pushEvents (st : RState) : pushEvents (shiplog st).2 = [] := by
  by_cases h : st.linebits.flatten = [] <;>
    simp [shiplog, h, pushEvents, List.filterMap, pushOf]

theorem shiplog_pending (st : RState) : (shiplog st).1.pending_ship = st.pending_ship := by
  by_cases h : st.linebits.flatten = [] <;> simp [shiplog, h]

theorem endswithNL_ne_nil {s : Str} (h : endswithNL s = true) : s ≠ [] := by
  intro hnil
  simp [endswithNL, hnil] at h

theorem endswithNL_append (a : Str) {b : Str} (hb : b ≠ []) :
    endswithNL (a ++ b) = endswithNL b := by
  simp [endswithNL, List.getLast?_append_of_ne_nil a hb]

/-- `writeSeq` splits over list append, with traces concatenated in order. -/
theorem writeSeq_append (cid : Nat) (xs ys : List Str) (st : RState) :
    writeSeq cid st (xs ++ ys)
      = ((writeSeq cid (writeSeq cid st xs).1 ys).1,
         (writeSeq cid st xs).2 ++ (writeSeq cid (writeSeq cid st xs).1 ys).2) := by
  induction xs generalizing st with
  | nil => simp [writeSeq]
  | cons x xs ih => simp [writeSeq, ih, List.append_assoc]

/-- A run of partial writes only accumulates fragments and emits
`partialTrace`: one echo, one locked append and one deferred-ship push per
write, with no `_shiplog` execution. -/
theorem writeSeq_partial (cid : Nat) (front : List Str) (st : RState)
    (hf : ∀ w ∈ front, endswithNL w = false) :
    writeSeq cid st front
      = ({ st with linebits := st.linebits ++ front }, partialTrace cid front) := by
  induction front generalizing st with
  | nil => simp [writeSeq, partialTrace]
  | cons w ws ih =>
    have hw : endswithNL w = false := hf w (by simp)
    have hws : ∀ x ∈ ws, endswithNL x = false := fun x hx => hf x (by simp [hx])
    simp [writeSeq, write, hw, ih _ hws, partialTrace]

theorem partialTrace_shipCount (cid : Nat) (front : List Str) :
    shipCount (partialTrace cid front) = 0 := by
  induction front with
  | nil => simp [partialTrace, shipCount]
  | cons w ws ih => simp [partialTrace, shipCount, List.filter, isShipRun] at ih ⊢; exact ih

theorem partialTrace_logRecords (cid : Nat) (front : List Str) :
    logRecords (partialTrace cid front) = [] := by
  induction front with
  | nil => simp [partialTrace, logRecords]
  | cons w ws ih =>
    simp [partialTrace, logRecords, List.filterMap, logOf] at ih ⊢; exact ih

/-- Unfolding of `_shiplog` on a buffer whose joined contents are non-empty:
drain the fragment list and log the joined line, stripped of one trailing
newline when it ends with one. -/
theorem shiplog_drain (st : RState) (h : st.linebits.flatten ≠ []) :
    shiplog st
      = ({ st with linebits := [] },
         [Ev.shipRun, Ev.lockAcq, Ev.take, Ev.lockRel,
          Ev.log (if endswithNL st.linebits.flatten then st.linebits.flatten.dropLast
                  else st.linebits.flatten) false]) := by
  simp only [shiplog]
  rw [if_neg h]

/-- A newline-terminated `write` drains the buffer and logs the accumulated
line with one trailing character stripped, shipping exactly once and pushing
no deferred call. -/
theorem write_newline (cid : Nat) (st : RState) (w : Str) (hw : endswithNL w = true) :
    (write cid st w).1 = { st with linebits := [] } ∧
    logRecords (write cid st w).2 = [((st.linebits.flatten ++ w).dropLast, false)] ∧
    shipCount (write cid st w).2 = 1 ∧
    pushEvents (write cid st w).2 = [] := by
  have hwne : w ≠ [] := endswithNL_ne_nil hw
  have hne : ({ st with linebits := st.linebits ++ [w] } : RState).linebits.flatten ≠ [] := by
    simp [hwne]
  have hNL2 : endswithNL (st.linebits.flatten ++ w) = true := by
    rw [endswithNL_append _ hwne]; exact hw
  have hwrite : write cid st w
      = ((shiplog { st with linebits := st.linebits ++ [w] }).1,
         [Ev.echo cid w, Ev.lockAcq, Ev.append w, Ev.lockRel]
           ++ (shiplog { st with linebits := st.linebits ++ [w] }).2) := by
    simp [write, hw]
  rw [hwrite, shiplog_drain _ hne]
  refine ⟨rfl, ?_, ?_, ?_⟩ <;>
    simp [logRecords, shipCount, pushEvents, List.filterMap, List.filter,
      logOf, pushOf, isShipRun, hNL2]

/-- Claim C1: writes `w1..wn` on one instance where none of `w1..w(n-1)` ends
in a newline, `wn` does, and no deferred ship fires in between, produce
exactly one `_shiplog` execution and exactly one log record, namely the
concatenation of all the fragments with the single trailing newline
stripped. -/
theorem coalesce_single_record (cid : Nat) (front : List Str) (wlast : Str)
    (hf : ∀ w ∈ front, endswithNL w = false)
    (hl : endswithNL wlast = true) :
    shipCount (writeSeq cid init (front ++ [wlast])).2 = 1 ∧
    logRecords (writeSeq cid init (front ++ [wlast])).2
      = [(((front ++ [wlast]).flatten).dropLast, false)] := by
  have h2 := write_newline cid { linebits := front, pending_ship := false } wlast hl
  rw [writeSeq_append, writeSeq_partial cid front init hf]
  simp only [init, List.nil_append] at *
  constructor
  · rw [writeSeq, shipCount_append, partialTrace_shipCount]
    simp only [writeSeq, List.append_nil]
    simpa using h2.2.2.1
  · rw [writeSeq, logRecords_append, partialTrace_logRecords]
    simp only [writeSeq, List.append_nil, List.nil_append]
    rw [h2.2.1]
    simp

/-- Claim C1 witness, concrete scenario A of the spec:
`write("a"); write("b\n")` produces one ship and the single record `"ab"`. -/
theorem coalesce_single_record_witness :
    shipCount (writeSeq 0 init ([['a']] ++ [['b', '\n']])).2 = 1 ∧
    logRecords (writeSeq 0 init ([['a']] ++ [['b', '\n']])).2
      = [((([['a']] ++ [['b', '\n']]).flatten).dropLast, false)] :=
  coalesce_single_record 0 [['a']] ['b', '\n'] (by decide) (by decide)

/-- Claim C3: `write(text)` executes `_shiplog` synchronously exactly when
`text` ends in a newline (then it pushes nothing); otherwise it executes no
ship and pushes exactly one deferred `_shiplog` with `from_other_thread=True`
and `suppress_other_thread_warning=True`. -/
theorem write_sync_iff_newline (cid : Nat) (st : RState) (text : Str) :
    (shipCount (write cid st text).2 = 1 ↔ endswithNL text = true) ∧
    (endswithNL text = true → pushEvents (write cid st text).2 = []) ∧
    (endswithNL text = false →
      shipCount (write cid st text).2 = 0 ∧
      pushEvents (write cid st text).2 = [(true, true)]) := by
  by_cases h : endswithNL text = true
  · refine ⟨⟨fun _ => h, fun _ => (write_newline cid st text h).2.2.1⟩,
      fun _ => (write_newline cid st text h).2.2.2, fun hc => ?_⟩
    rw [h] at hc; exact absurd hc (by simp)
  · have h' : endswithNL text = false := by simpa using h
    refine ⟨⟨fun hs => ?_, fun hs => absurd hs h⟩, fun hs => absurd hs h, fun _ => ?_⟩
    · exfalso
      have : shipCount (write cid st text).2 = 0 := by
        simp [write, h', shipCount, List.filter, isShipRun]
      omega
    · constructor <;>
        simp [write, h', shipCount, pushEvents, List.filter, List.filterMap,
          isShipRun, pushOf]

/-- Claim C3 witness, concrete scenario B plus a partial write:
`write("x\n")` ships synchronously with no scheduler push, while `write("x")`
ships nothing and pushes one deferred call with both flags set. -/
theorem write_sync_iff_newline_witness :
    shipCount (write 0 init ['x', '\n']).2 = 1 ∧
    pushEvents (write 0 init ['x', '\n']).2 = [] ∧
    shipCount (write 0 init ['x']).2 = 0 ∧
    pushEvents (write 0 init ['x']).2 = [(true, true)] := by
  refine ⟨(write_sync_iff_newline 0 init ['x', '\n']).1.mpr (by decide),
    (write_sync_iff_newline 0 init ['x', '\n']).2.1 (by decide), ?_, ?_⟩
  · exact ((write_sync_iff_newline 0 init ['x']).2.2 (by decide)).1
  · exact ((write_sync_iff_newline 0 init ['x']).2.2 (by decide)).2

/-- The echo callback is the first event of every `write` and the only echo
in its trace. -/
theorem write_echo_trace (cid : Nat) (st : RState) (text : Str) :
    (write cid st text).2.head? = some (Ev.echo cid text) ∧
    echoEvents (write cid st text).2 = [(cid, text)] := by
  by_cases h : endswithNL text = true
  · refine ⟨by simp [write, h], ?_⟩
    rw [show (write cid st text).2
        = [Ev.echo cid text, Ev.lockAcq, Ev.append text, Ev.lockRel]
          ++ (shiplog { st with linebits := st.linebits ++ [text] }).2 by
      simp [write, h]]
    rw [echoEvents_append, shiplog_echoEvents]
    simp [echoEvents, List.filterMap, echoOf]
  · have h' : endswithNL text = false := by simpa using h
    exact ⟨by simp [write, h'], by
      simp [write, h', echoEvents, List.filterMap, echoOf]⟩

/-- Claim C4: every `write(text)` invokes the echo callback exactly once,
with the unmodified text, as the very first event of the call — before the
lock is taken, before the fragment is appended and before any shipping. -/
theorem write_echo_first (cid : Nat) (st : RState) (text : Str) :
    (write cid st text).2.head? = some (Ev.echo cid text) ∧
    echoEvents (write cid st text).2 = [(cid, text)] :=
  write_echo_trace cid st text

/-- Claim C5 counterexample: the record shipped for `write("a\n\n")` is
`"a\n"`, which still ends with a newline — `_shiplog` strips only one
trailing newline, so records are not always newline-free. -/
theorem record_may_end_newline :
    logRecords (write 0 init ['a', '\n', '\n']).2 = [(['a', '\n'], false)] ∧
    endswithNL ['a', '\n'] = true := by decide

/-- Claim C5 as amended: on a buffer whose joined contents are non-empty,
`_shiplog` forwards exactly one record, the join of the fragments with one
trailing newline stripped when the join ends with one; the record ends with
a newline exactly when the joined string ends with two newlines. -/
theorem shiplog_strip_once (st : RState) (h : st.linebits.flatten ≠ []) :
    logRecords (shiplog st).2
      = [(if endswithNL st.linebits.flatten then st.linebits.flatten.dropLast
          else st.linebits.flatten, false)] ∧
    ∀ r ∈ logRecords (shiplog st).2,
      endswithNL r.1
        = (endswithNL st.linebits.flatten
            && endswithNL st.linebits.flatten.dropLast) := by
  rw [shiplog_drain st h]
  refine ⟨by simp [logRecords, List.filterMap, logOf], ?_⟩
  intro r hr
  simp [logRecords, List.filterMap, logOf] at hr
  by_cases hNL : endswithNL st.linebits.flatten = true
  · simp [hNL] at hr ⊢
    simp [hr]
  · have hNL' : endswithNL st.linebits.flatten = false := by simpa using hNL
    simp [hNL'] at hr ⊢
    simp [hr, hNL']

/-- Claim C5 witness: a buffer holding the single fragment `"a\n"` ships the
newline-free record `"a"`. -/
theorem shiplog_strip_once_witness :
    logRecords (shiplog { linebits := [['a', '\n']], pending_ship := false }).2
      = [(['a'], false)] ∧
    endswithNL ['a'] = false := by
  have h := shiplog_strip_once { linebits := [['a', '\n']], pending_ship := false }
    (by decide)
  exact ⟨by rw [h.1]; decide, by decide⟩

/-- Claim C6 counterexample: after `write("")` the buffer holds the single
empty fragment; `_shiplog` then returns early without clearing it, so the
buffer is not reset to empty for that prior buffer state. -/
theorem shiplog_no_reset_on_empty_join :
    (write 0 init ([] : Str)).1 = { linebits := [([] : Str)], pending_ship := false } ∧
    (shiplog (write 0 init ([] : Str)).1).1.linebits = [([] : Str)] ∧
    [([] : Str)] ≠ ([] : List Str) := by decide

/-- Claim C6 as amended: `_shiplog` takes the whole buffer and resets it to
empty whenever the fragments join to a non-empty string; when they join to
the empty string it returns early, leaving the state unchanged and logging
nothing.  In both cases the buffer is never partially consumed: afterwards it
is either empty or exactly its prior contents. -/
theorem shiplog_take_all_or_nothing (st : RState) :
    (st.linebits.flatten ≠ [] → (shiplog st).1.linebits = []) ∧
    (st.linebits.flatten = [] →
      (shiplog st).1 = st ∧ logRecords (shiplog st).2 = []) ∧
    ((shiplog st).1.linebits = [] ∨ (shiplog st).1.linebits = st.linebits) := by
  by_cases h : st.linebits.flatten = []
  · refine ⟨fun hc => absurd h hc, fun _ => ?_, Or.inr ?_⟩ <;>
      simp [shiplog, h, logRecords, List.filterMap, logOf]
  · rw [shiplog_drain st h]
    exact ⟨fun _ => rfl, fun hc => absurd hc h, Or.inl rfl⟩

/-- Claim C6 witness: a buffer with non-empty joined contents is fully
drained by `_shiplog`. -/
theorem shiplog_take_all_witness :
    (shiplog { linebits := [['a', '\n']], pending_ship := false }).1.linebits
      = ([] : List Str) :=
  (shiplog_take_all_or_nothing { linebits := [['a', '\n']], pending_ship := false }).1
    (by decide)

/-- Claim C7: `_shiplog` on an empty buffer changes nothing and logs no
record, and for any state a second `_shiplog` right after a first one adds
nothing: the state is already drained and no further record is emitted. -/
theorem shiplog_empty_idempotent (st : RState) :
    (st.linebits = [] →
      (shiplog st).1 = st ∧ logRecords (shiplog st).2 = []) ∧
    (shiplog (shiplog st).1).1 = (shiplog st).1 ∧
    logRecords (shiplog (shiplog st).1).2 = [] := by
  have hempty : ∀ s : RState, s.linebits.flatten = [] →
      (shiplog s).1 = s ∧ logRecords (shiplog s).2 = [] := by
    intro s hs
    constructor <;> simp [shiplog, hs, logRecords, List.filterMap, logOf]
  by_cases h : st.linebits.flatten = []
  · refine ⟨fun _ => hempty st h, ?_, ?_⟩
    · rw [(hempty st h).1, (hempty st h).1]
    · rw [(hempty st h).1]; exact (hempty st h).2
  · have hdrained : (shiplog st).1.linebits = [] := by
      rw [shiplog_drain st h]
    have h2 : (shiplog st).1.linebits.flatten = [] := by rw [hdrained]; rfl
    exact ⟨fun hc => hempty st (by rw [hc]; rfl), (hempty _ h2).1, (hempty _ h2).2⟩

/-- Claim C7 witness: on a fresh instance `_shiplog` is a no-op that emits
no record. -/
theorem shiplog_empty_idempotent_witness :
    (shiplog init).1 = init ∧ logRecords (shiplog init).2 = [] :=
  (shiplog_empty_idempotent init).1 (by decide)

/-- Claim C8: `flush` only calls `self._original.flush()` and `isatty` only
returns `self._original.isatty()`; neither changes the state, logs, pushes,
or runs `_shiplog`. -/
theorem flush_isatty_delegate (st : RState) (origAtty : Bool) :
    (flush st).1 = st ∧
    (flush st).2 = [Ev.flushOrig] ∧
    logRecords (flush st).2 = [] ∧
    pushEvents (flush st).2 = [] ∧
    shipCount (flush st).2 = 0 ∧
    (isatty origAtty st).1 = origAtty ∧
    (isatty origAtty st).2.1 = st ∧
    (isatty origAtty st).2.2 = [Ev.isattyOrig] ∧
    logRecords (isatty origAtty st).2.2 = [] ∧
    shipCount (isatty origAtty st).2.2 = 0 := by
  refine ⟨rfl, rfl, ?_, ?_, ?_, rfl, rfl, rfl, ?_, ?_⟩ <;>
    simp [flush, isatty, logRecords, pushEvents, shipCount,
      List.filterMap, List.filter, logOf, pushOf, isShipRun]

/-- Claim C9: `_pending_ship` is initialised to `False` and no operation
reads or changes it — every operation preserves the field and produces a
trace independent of its value — and every partial write pushes exactly one
new deferred ship, whatever the prior state (so pending requests are never
deduplicated). -/
theorem pending_ship_unused (cid : Nat) (st : RState) (text : Str)
    (l : List Str) (b b' : Bool) :
    init.pending_ship = false ∧
    (write cid st text).1.pending_ship = st.pending_ship ∧
    (shiplog st).1.pending_ship = st.pending_ship ∧
    (flush st).1.pending_ship = st.pending_ship ∧
    (write cid { linebits := l, pending_ship := b } text).2
      = (write cid { linebits := l, pending_ship := b' } text).2 ∧
    (endswithNL text = false → pushEvents (write cid st text).2 = [(true, true)]) := by
  refine ⟨rfl, ?_, shiplog_pending st, rfl, ?_, ?_⟩
  · by_cases h : endswithNL text = true
    · rw [(write_newline cid st text h).1]
    · have h' : endswithNL text = false := by simpa using h
      simp [write, h']
  · by_cases h : endswithNL text = true
    · simp [write, shiplog, h, endswithNL_ne_nil h]
    · have h' : endswithNL text = false := by simpa using h
      simp [write, h']
  · intro h'
    simp [write, h', pushEvents, List.filterMap, pushOf]

/-- Claim C9 witness: a partial write on a state that already accumulated a
fragment (an earlier deferred ship still pending) pushes one more deferred
ship. -/
theorem pending_ship_unused_witness :
    pushEvents (write 0 { linebits := [['p']], pending_ship := false } ['q']).2
      = [(true, true)] :=
  (pending_ship_unused 0 { linebits := [['p']], pending_ship := false } ['q']
      [] false false).2.2.2.2.2 (by decide)

/-- Claim C10: every record any `_shiplog` or `write` trace delivers to
`_ba.log` carries `to_stdout=False`, so shipped text is never echoed to the
console a second time by the sink. -/
theorem log_never_to_stdout (cid : Nat) (st : RState) (text : Str) :
    (logRecords (shiplog st).2).all (fun r => !r.2) = true ∧
    (logRecords (write cid st text).2).all (fun r => !r.2) = true := by
  have hship : ∀ s : RState, (logRecords (shiplog s).2).all (fun r => !r.2) = true := by
    intro s
    by_cases h : s.linebits.flatten = []
    · simp [shiplog, h, logRecords, List.filterMap, logOf]
    · rw [shiplog_drain s h]
      simp [logRecords, List.filterMap, logOf]
  refine ⟨hship st, ?_⟩
  by_cases h : endswithNL text = true
  · have hw : (write cid st text).2
        = [Ev.echo cid text, Ev.lockAcq, Ev.append text, Ev.lockRel]
          ++ (shiplog { st with linebits := st.linebits ++ [text] }).2 := by
      simp [write, h]
    rw [hw, logRecords_append]
    have := hship { st with linebits := st.linebits ++ [text] }
    simp [logRecords, List.filterMap, logOf] at this ⊢
    exact this
  · have h' : endswithNL text = false := by simpa using h
    simp [write, h', logRecords, List.filterMap, logOf]

/-- Claim C2 counterexample: `_shiplog` passes no destination tag to
`_ba.log` — the stdout instance (echo callback 0) and the stderr instance
(echo callback 1) deliver bit-for-bit identical records for the same write,
so no assignment of tags to records can identify the originating instance. -/
theorem no_destination_tag :
    logRecords (write 0 init ['x', '\n']).2 = logRecords (write 1 init ['x', '\n']).2 ∧
    ¬ ∃ tagOf : Str × Bool → Nat,
        (∀ r ∈ logRecords (write 0 init ['x', '\n']).2, tagOf r = 0) ∧
        (∀ r ∈ logRecords (write 1 init ['x', '\n']).2, tagOf r = 1) := by
  constructor
  · decide
  · rintro ⟨f, h0, h1⟩
    have e0 : logRecords (write 0 init ['x', '\n']).2 = [(['x'], false)] := by decide
    have e1 : logRecords (write 1 init ['x', '\n']).2 = [(['x'], false)] := by decide
    have a0 := h0 (['x'], false) (by rw [e0]; simp)
    have a1 := h1 (['x'], false) (by rw [e1]; simp)
    rw [a0] at a1
    exact absurd a1 (by decide)

/-- Claim C2 as amended: the records a write delivers to `_ba.log` are
identical for every instance — only the line and `to_stdout=False` are
forwarded, never a destination tag — while the instance identity shows up
solely in the echo callback invoked on the write. -/
theorem records_instance_blind (cid cid' : Nat) (st : RState) (text : Str) :
    logRecords (write cid st text).2 = logRecords (write cid' st text).2 ∧
    echoEvents (write cid st text).2 = [(cid, text)] := by
  refine ⟨?_, (write_echo_trace cid st text).2⟩
  by_cases h : endswithNL text = true
  · rw [(write_newline cid st text h).2.1, (write_newline cid' st text h).2.1]
  · have h' : endswithNL text = false := by simpa using h
    simp [write, h', logRecords, List.filterMap, logOf]

end Ballistica
